import Mathlib

/-!
Verification of the AIJobInsight response-handling logic.

The development embeds, in order:
  * the bullet-splitting expression of the result renderer
    (`App.tsx`, `insight.text.split('*').map(s => s.trim()).filter(Boolean)`);
  * the response normalizer of the generative-model client
    (`generateInsights` in the Gemini service module): structure checks,
    icon-keyed lookup built as a JavaScript `Map` (later entries overwrite
    earlier ones), reassembly in the fixed icon order with re-derived titles,
    and skill-distribution rescaling;
  * the error translation of the catch-all handler around `generateInsights`;
  * the HTTP-variant client `getJobInsights` with its `errorData.detail ||
    fallback` message selection (JavaScript `||` treats the empty string as
    falsy).

JavaScript numbers are modelled as rationals; `Math.round` is modelled as
`x := the floor of (x + 1/2)`, which agrees with `Math.round` on the values at
stake here.  Strings are Lean `String`s; the splitting and trimming steps are
carried out on the underlying character lists so that they compute by `decide`.
-/

namespace AIJobInsight

/-- The whitespace-trim of JavaScript `String.prototype.trim`, on the
character list of a string: drop whitespace from both ends. -/
def trimChars (l : List Char) : List Char :=
  ((l.dropWhile Char.isWhitespace).reverse.dropWhile Char.isWhitespace).reverse

/-- JavaScript `String.prototype.split` with a single-character separator,
on character lists: `jsSplit sep l` returns the (possibly empty) segments
between occurrences of `sep`, in order.  As in JavaScript, the empty string
splits to `[[]]` (one empty segment). -/
def jsSplit (sep : Char) : List Char → List (List Char)
  | [] => [[]]
  | c :: rest =>
    if c = sep then [] :: jsSplit sep rest
    else match jsSplit sep rest with
      | [] => [[c]]
      | h :: t => (c :: h) :: t

/-- The bullet-split expression of the renderer
(`insight.text.split('*').map(s => s.trim()).filter(Boolean)`): split on
the `*` character, trim each segment, drop the segments that are empty
strings (the only falsy strings in JavaScript). -/
def splitBullets (s : String) : List String :=
  ((jsSplit '*' s.toList).map (fun l => String.mk (trimChars l))).filter
    (fun t => t ≠ "")

/-- The four category keys (the `icon` union type of the source). -/
inductive Icon where
  | skills
  | leadership
  | tenure
  | expertise
deriving DecidableEq, Fintype

/-- The skill-distribution object: raw percentages from the service. -/
structure SkillDistribution where
  technical : ℚ
  soft : ℚ
deriving DecidableEq

/-- A raw `keyInsights` entry as parsed from the service response: an icon
key, the free-text bullet content, and a possible service-supplied title
(the source's `Map` values keep whatever fields the JSON had; its own type
omits `title`). -/
structure RawKeyInsight where
  icon : Icon
  text : String
  extraTitle : Option String
deriving DecidableEq

/-- A normalized key insight (the source's `KeyInsight` interface). -/
structure KeyInsight where
  title : String
  text : String
  icon : Icon
deriving DecidableEq

/-- The parsed JSON of a generative-model response, before validation:
either top-level field may be absent. -/
structure RawResponse where
  skillDistribution : Option SkillDistribution
  keyInsights : Option (List RawKeyInsight)

/-- The normalized result (the source's `InsightData`, restricted to the
fields the normalizer actually produces). -/
structure InsightData where
  skillDistribution : SkillDistribution
  keyInsights : List KeyInsight
deriving DecidableEq

/-- The fixed key-to-title table `insightTitles` of the source. -/
def insightTitles : Icon → String
  | .skills => "Skill Requirements"
  | .leadership => "Leadership Experience"
  | .tenure => "Employee Tenure"
  | .expertise => "Required Expertise"

/-- The fixed reassembly order `orderedIcons` of the source. -/
def orderedIcons : List Icon := [.skills, .leadership, .tenure, .expertise]

/-- The icon-keyed lookup `insightsMap` of the source, built as a JavaScript
`Map` from the entry list: entries are inserted in order and a later entry
overwrites an earlier one with the same key. -/
def insightsMap (ks : List RawKeyInsight) : Icon → Option RawKeyInsight :=
  ks.foldl (fun m k => fun i => if i = k.icon then some k else m i)
    (fun _ => none)

/-- JavaScript `Math.round` on rationals: the floor of `x + 1/2`. -/
def jsRound (x : ℚ) : ℚ := (⌊x + 1/2⌋ : ℤ)

/-- The skill-distribution repair step of `generateInsights`: when the two
percentages have a positive sum other than 100, rescale `technical` to the
rounded share of the sum and set `soft` to the complement; when the sum is
zero, fall back to a 50/50 split; otherwise leave the pair unchanged. -/
def normalizeDistribution (d : SkillDistribution) : SkillDistribution :=
  let total := d.technical + d.soft
  if 0 < total ∧ total ≠ 100 then
    let technical := jsRound (d.technical / total * 100)
    { technical := technical, soft := 100 - technical }
  else if total = 0 then
    { technical := 50, soft := 50 }
  else
    d

/-- The `orderedInsights` computation of the source: walk the fixed icon
order, look each icon up in the map, overwrite the title from the fixed
table, and drop the icons that are absent (`.filter(Boolean)`). -/
def orderedInsights (ks : List RawKeyInsight) : List KeyInsight :=
  orderedIcons.filterMap (fun icon =>
    (insightsMap ks icon).map (fun insight =>
      { title := insightTitles icon, text := insight.text,
        icon := insight.icon }))

/-- Error text of the structure check of `generateInsights`. -/
def invalidStructureMsg : String := "Invalid data structure received from API."

/-- Error text of the completeness check of `generateInsights`. -/
def missingInsightsMsg : String :=
  "API did not return all required key insights."

/-- The single message produced by the catch-all handler of
`generateInsights`. -/
def failedMsg : String :=
  "Failed to generate insights. The AI model may be temporarily unavailable. Please try again later."

/-- The normalization body of `generateInsights` on a parsed response:
reject when `skillDistribution` or `keyInsights` is absent or fewer than
four entries arrived; rebuild the insights in fixed order; reject when any
of the four keys is missing; repair the distribution. -/
def normalizeResponse (data : RawResponse) : Except String InsightData :=
  match data.skillDistribution, data.keyInsights with
  | some sd, some ks =>
    if ks.length < 4 then
      .error invalidStructureMsg
    else if (orderedInsights ks).length < 4 then
      .error missingInsightsMsg
    else
      .ok { skillDistribution := normalizeDistribution sd,
            keyInsights := orderedInsights ks }
  | _, _ => .error invalidStructureMsg

/-- The exported `generateInsights`, as seen by its caller: the argument is
the outcome of the transport-and-parse stage (an error for a transport or
JSON-parse failure, otherwise the parsed response), and the catch-all
handler collapses every failure to the one fixed message. -/
def generateInsights (response : Except String RawResponse) :
    Except String InsightData :=
  match response with
  | .error _ => .error failedMsg
  | .ok data =>
    match normalizeResponse data with
    | .ok v => .ok v
    | .error _ => .error failedMsg

/-- The nested skill-distribution object of the HTTP backend's payload. -/
structure HttpSkillDistribution where
  technical_percentage : ℚ
  soft_percentage : ℚ
deriving DecidableEq

/-- The HTTP backend's `InsightData` payload shape. -/
structure HttpInsightData where
  job_title : String
  career_level : String
  skill_distribution : HttpSkillDistribution
  skill_requirements : List String
  leadership_experience : List String
  employee_tenure : List String
  required_expertise : List String
deriving DecidableEq

/-- An HTTP response as `getJobInsights` observes it: the success flag
(status in the 2xx range), the status text, the parsed body's `detail`
field when the body has one, and the parsed payload used on success. -/
structure HttpResponse where
  ok : Bool
  statusText : String
  detail : Option String
  data : HttpInsightData

/-- JavaScript `a || b` on an optional string `a`: the fallback is taken
when the field is absent or is the empty string (the falsy string). -/
def jsOrString (s : Option String) (fallback : String) : String :=
  match s with
  | some v => if v = "" then fallback else v
  | none => fallback

/-- The HTTP-variant client `getJobInsights`: on a non-ok response, fail
with `errorData.detail || "API error: " + statusText`; otherwise return the
parsed payload. -/
def getJobInsights (response : HttpResponse) : Except String HttpInsightData :=
  if response.ok then
    .ok response.data
  else
    .error (jsOrString response.detail ("API error: " ++ response.statusText))

/-! Helper lemmas. -/

/-- Splitting a character list that does not contain the separator returns
the whole list as the single segment. -/
lemma jsSplit_of_not_mem (sep : Char) (l : List Char) (h : sep ∉ l) :
    jsSplit sep l = [l] := by
  induction l with
  | nil => rfl
  | cons c rest ih =>
    have hc : c ≠ sep := fun hcs => h (hcs ▸ List.mem_cons_self c rest)
    have hrest : sep ∉ rest := fun hm => h (List.mem_cons_of_mem c hm)
    simp [jsSplit, hc, ih hrest]

/-- The fold that builds the icon-keyed map answers, for each icon, with
the last matching entry of the list, and falls back to the initial map. -/
lemma foldl_insight_step (ks : List RawKeyInsight)
    (m : Icon → Option RawKeyInsight) (i : Icon) :
    (ks.foldl (fun m k => fun j => if j = k.icon then some k else m j) m) i
      = ((ks.filter (fun k => decide (k.icon = i))).getLast?).or (m i) := by
  induction ks generalizing m with
  | nil => simp
  | cons k t ih =>
    rw [List.foldl_cons, ih, List.filter_cons]
    by_cases hk : k.icon = i
    · cases hlast : (t.filter (fun k => decide (k.icon = i))).getLast? with
      | none => simp [hk, hlast, List.getLast?_cons]
      | some x => simp [hk, hlast, List.getLast?_cons]
    · have hki : i ≠ k.icon := fun hik => hk hik.symm
      simp [hk, hki]

/-- `insightsMap` returns the last entry of the list with the given icon,
when one exists: the JavaScript `Map` keeps the last write per key. -/
lemma insightsMap_eq_getLast (ks : List RawKeyInsight) (i : Icon) :
    insightsMap ks i = (ks.filter (fun k => decide (k.icon = i))).getLast? := by
  have h := foldl_insight_step ks (fun _ => none) i
  simpa [insightsMap] using h

/-- An icon with no entry in the list is absent from the map. -/
lemma insightsMap_eq_none (ks : List RawKeyInsight) (i : Icon)
    (h : ∀ k ∈ ks, k.icon ≠ i) : insightsMap ks i = none := by
  rw [insightsMap_eq_getLast]
  have : ks.filter (fun k => decide (k.icon = i)) = [] :=
    List.filter_eq_nil_iff.mpr (fun k hk => by simpa using h k hk)
  simp [this]

/-- An icon with an entry in the list is mapped to some entry carrying that
icon. -/
lemma insightsMap_isSome (ks : List RawKeyInsight) (i : Icon)
    (h : ∃ k ∈ ks, k.icon = i) :
    ∃ k, insightsMap ks i = some k ∧ k.icon = i := by
  rw [insightsMap_eq_getLast]
  obtain ⟨k, hk, hik⟩ := h
  have hne : ks.filter (fun k => decide (k.icon = i)) ≠ [] := by
    intro hnil
    have := List.filter_eq_nil_iff.mp hnil k hk
    simp [hik] at this
  obtain ⟨x, hx⟩ := Option.isSome_iff_exists.mp
    (List.getLast?_isSome.mpr hne)
  refine ⟨x, hx, ?_⟩
  have hmem : x ∈ ks.filter (fun k => decide (k.icon = i)) :=
    List.mem_of_mem_getLast? hx
  simpa using (List.mem_filter.mp hmem).2

/-- Dropping an element to `none` makes a `filterMap` strictly shorter
than the original list. -/
lemma length_filterMap_lt {α β : Type} (f : α → Option β) (l : List α)
    (a : α) (ha : a ∈ l) (hf : f a = none) :
    (l.filterMap f).length < l.length := by
  induction l with
  | nil => cases ha
  | cons x t ih =>
    rw [List.filterMap_cons]
    rcases List.mem_cons.mp ha with rfl | hat
    · rw [hf]
      exact Nat.lt_succ_of_le (List.length_filterMap_le f t)
    · cases hx : f x with
      | none => exact Nat.lt_succ_of_lt (ih hat)
      | some b => simpa using ih hat

/-- Every icon occurs in the fixed order list. -/
lemma mem_orderedIcons (i : Icon) : i ∈ orderedIcons := by
  cases i <;> simp [orderedIcons]

/-- Rescaling branch of the distribution repair: positive sum, not 100. -/
lemma normalizeDistribution_of_pos (t s : ℚ) (hpos : 0 < t + s)
    (hne : t + s ≠ 100) :
    normalizeDistribution ⟨t, s⟩ =
      ⟨jsRound (t / (t + s) * 100), 100 - jsRound (t / (t + s) * 100)⟩ := by
  simp [normalizeDistribution, hpos, hne]

/-- Zero-sum branch of the distribution repair: fall back to 50/50. -/
lemma normalizeDistribution_of_zero (t s : ℚ) (hzero : t + s = 0) :
    normalizeDistribution ⟨t, s⟩ = ⟨50, 50⟩ := by
  have h1 : ¬ (0 < t + s ∧ t + s ≠ 100) := by
    rintro ⟨hpos, -⟩
    rw [hzero] at hpos
    exact lt_irrefl 0 hpos
  simp [normalizeDistribution, h1, hzero]

/-- Identity branch of the distribution repair: the sum is already 100. -/
lemma normalizeDistribution_of_hundred (t s : ℚ) (hsum : t + s = 100) :
    normalizeDistribution ⟨t, s⟩ = ⟨t, s⟩ := by
  simp [normalizeDistribution, hsum]

/-! Claim theorems. -/

/-- C4: the bullet-split operation splits on the character `*`, trims each
segment and discards empty segments; on the input
`"* Python\n* SQL * Excel"` it yields exactly `["Python", "SQL", "Excel"]`. -/
theorem splitBullets_example :
    splitBullets "* Python\n* SQL * Excel" = ["Python", "SQL", "Excel"] := by
  decide

/-- C5 counterexample: the empty string contains no `*` character, yet the
bullet split yields the empty list (the single trimmed segment is the empty
string, which `filter(Boolean)` discards), contradicting the claim that an
input without `*` always yields a single bullet and never an empty list. -/
theorem splitBullets_no_star_empty_cex :
    ('*' ∉ ("" : String).toList) ∧ splitBullets "" = [] := by
  decide

/-- C5 amended: for every string that contains no `*` character and whose
trimmed form is non-empty, the bullet split yields exactly the one bullet
consisting of the whole trimmed string. -/
theorem splitBullets_no_star (s : String) (hstar : '*' ∉ s.toList)
    (hne : String.mk (trimChars s.toList) ≠ "") :
    splitBullets s = [String.mk (trimChars s.toList)] := by
  unfold splitBullets
  rw [jsSplit_of_not_mem '*' s.toList hstar]
  simp only [List.map_cons, List.map_nil, List.filter_cons, List.filter_nil]
  rw [if_pos (by simpa using hne)]

/-- C5 witness: a concrete `*`-free string splits to its single trimmed
bullet. -/
theorem splitBullets_no_star_witness :
    splitBullets "  Python only " = [String.mk (trimChars "  Python only ".toList)] :=
  splitBullets_no_star "  Python only " (by decide) (by decide)

/-- C2: when the raw percentages have a positive sum different from 100,
normalization sets `technical` to the rounded share `round(technical /
(technical + soft) * 100)` and `soft` to `100` minus the new `technical`;
when the sum is zero it sets both to `50`. -/
theorem normalizeDistribution_spec (t s : ℚ) :
    (0 < t + s → t + s ≠ 100 →
      normalizeDistribution ⟨t, s⟩ =
        ⟨jsRound (t / (t + s) * 100), 100 - jsRound (t / (t + s) * 100)⟩) ∧
    (t + s = 0 →
      normalizeDistribution ⟨t, s⟩ = ⟨50, 50⟩) := by
  exact ⟨normalizeDistribution_of_pos t s, normalizeDistribution_of_zero t s⟩

/-- C2 witness: the two concrete instances of the claim, raw `(70, 20)`
normalizes to `(78, 22)` and raw `(0, 0)` normalizes to `(50, 50)`. -/
theorem normalizeDistribution_spec_witness :
    normalizeDistribution ⟨70, 20⟩ = ⟨78, 22⟩ ∧
    normalizeDistribution ⟨0, 0⟩ = ⟨50, 50⟩ := by
  constructor
  · have h := (normalizeDistribution_spec 70 20).1 (by norm_num) (by norm_num)
    rw [h]
    norm_num [jsRound, SkillDistribution.mk.injEq]
  · exact (normalizeDistribution_spec 0 0).2 (by norm_num)

/-- C3 counterexample: the normalizer accepts the raw distribution
`(-50, 150)` (nothing in the code rejects negative percentages) and, since
the sum is exactly 100, returns it unchanged, so the normalized `technical`
is negative, contradicting the claimed non-negativity invariant. -/
theorem distribution_invariant_cex :
    (normalizeDistribution ⟨-50, 150⟩).technical < 0 := by
  norm_num [normalizeDistribution]

/-- C3 amended: for every raw skill distribution whose two components are
non-negative, the normalized distribution has non-negative components
summing to exactly 100. -/
theorem distribution_invariant (t s : ℚ) (ht : 0 ≤ t) (hs : 0 ≤ s) :
    0 ≤ (normalizeDistribution ⟨t, s⟩).technical ∧
    0 ≤ (normalizeDistribution ⟨t, s⟩).soft ∧
    (normalizeDistribution ⟨t, s⟩).technical
      + (normalizeDistribution ⟨t, s⟩).soft = 100 := by
  by_cases h1 : 0 < t + s ∧ t + s ≠ 100
  · obtain ⟨hpos, hne⟩ := h1
    rw [normalizeDistribution_of_pos t s hpos hne]
    have hx0 : (0 : ℚ) ≤ t / (t + s) * 100 :=
      mul_nonneg (div_nonneg ht (le_of_lt hpos)) (by norm_num)
    have hx1 : t / (t + s) * 100 ≤ 100 := by
      have hle : t / (t + s) ≤ 1 :=
        (div_le_one hpos).mpr (le_add_of_nonneg_right hs)
      nlinarith
    have hfl0 : (0 : ℤ) ≤ ⌊t / (t + s) * 100 + 1/2⌋ := by
      rw [Int.le_floor]
      push_cast
      linarith
    have hfl1 : ⌊t / (t + s) * 100 + 1/2⌋ ≤ 100 := by
      have hlt : ⌊t / (t + s) * 100 + 1/2⌋ < 101 := by
        rw [Int.floor_lt]
        push_cast
        linarith
      omega
    have hq0 : (0 : ℚ) ≤ jsRound (t / (t + s) * 100) := by
      rw [jsRound]
      exact_mod_cast hfl0
    have hq1 : jsRound (t / (t + s) * 100) ≤ 100 := by
      rw [jsRound]
      exact_mod_cast hfl1
    exact ⟨hq0, by simpa using hq1, by ring⟩
  · by_cases h2 : t + s = 0
    · rw [normalizeDistribution_of_zero t s h2]
      norm_num
    · have hsum : t + s = 100 := by
        rcases lt_or_eq_of_le (add_nonneg ht hs) with hpos | hzero
        · by_contra hne
          exact h1 ⟨hpos, hne⟩
        · exact absurd hzero.symm h2
      rw [normalizeDistribution_of_hundred t s hsum]
      exact ⟨ht, hs, hsum⟩

/-- C3 witness for the amended claim: the invariant at the concrete
non-negative raw distribution `(70, 20)`. -/
theorem distribution_invariant_witness :
    0 ≤ (normalizeDistribution ⟨70, 20⟩).technical ∧
    0 ≤ (normalizeDistribution ⟨70, 20⟩).soft ∧
    (normalizeDistribution ⟨70, 20⟩).technical
      + (normalizeDistribution ⟨70, 20⟩).soft = 100 :=
  distribution_invariant 70 20 (by norm_num) (by norm_num)

/-- A concrete HTTP payload used by the client examples. -/
def sampleHttpData : HttpInsightData :=
  { job_title := "Data Analyst", career_level := "Junior",
    skill_distribution := { technical_percentage := 60, soft_percentage := 40 },
    skill_requirements := [], leadership_experience := [],
    employee_tenure := [], required_expertise := [] }

/-- C7 counterexample: a non-2xx response whose JSON body contains the
`detail` field with value `""` fails with the fallback message
`"API error: Internal Server Error"`, not with the detail value, because
JavaScript `errorData.detail || fallback` treats the empty string as falsy;
so the message does not always equal the body's detail value. -/
theorem getJobInsights_detail_cex :
    getJobInsights
        { ok := false, statusText := "Internal Server Error",
          detail := some "", data := sampleHttpData }
      = Except.error "API error: Internal Server Error" ∧
    "API error: Internal Server Error" ≠ "" := by
  constructor
  · rfl
  · decide

/-- C7 amended: for every non-2xx response whose JSON body contains a
non-empty `detail` field, the HTTP-variant client fails with an error whose
message equals that detail value. -/
theorem getJobInsights_detail (r : HttpResponse) (d : String)
    (hok : r.ok = false) (hd : r.detail = some d) (hne : d ≠ "") :
    getJobInsights r = Except.error d := by
  simp [getJobInsights, jsOrString, hok, hd, hne]

/-- C7 witness: the claim's concrete instance, a non-2xx response with body
detail `"rate limited"` fails with message `"rate limited"`. -/
theorem getJobInsights_detail_witness :
    getJobInsights
        { ok := false, statusText := "Too Many Requests",
          detail := some "rate limited", data := sampleHttpData }
      = Except.error "rate limited" :=
  getJobInsights_detail _ "rate limited" rfl rfl (by decide)

/-- C10: every failing run of the generative-model client — transport or
parse failure, missing field, too few entries, or a missing required
category — surfaces as an error with the one fixed message, so the caller
cannot distinguish the failure kinds from the message. -/
theorem generateInsights_failure_message (response : Except String RawResponse)
    (h : (generateInsights response).isOk = false) :
    generateInsights response = Except.error failedMsg := by
  cases response with
  | error e => rfl
  | ok data =>
    cases hn : normalizeResponse data with
    | ok v =>
      exfalso
      simp [generateInsights, hn, Except.isOk, Except.toBool] at h
    | error e => simp [generateInsights, hn]

/-- C10 witness: a concrete transport failure surfaces with the fixed
message. -/
theorem generateInsights_failure_message_witness :
    generateInsights (Except.error "network failure") = Except.error failedMsg :=
  generateInsights_failure_message (Except.error "network failure") rfl

/-- C6: whenever some required category key has no entry in the raw
response, normalization fails with an error and no `InsightData` is
produced. -/
theorem missing_category_fails (sd : Option SkillDistribution)
    (ks : List RawKeyInsight)
    (hmiss : ∃ i : Icon, ∀ k ∈ ks, k.icon ≠ i) :
    ∃ e, normalizeResponse ⟨sd, some ks⟩ = Except.error e := by
  obtain ⟨i, hi⟩ := hmiss
  cases sd with
  | none => exact ⟨invalidStructureMsg, rfl⟩
  | some d =>
    by_cases hlen : ks.length < 4
    · exact ⟨invalidStructureMsg, by simp [normalizeResponse, hlen]⟩
    · have hnone : insightsMap ks i = none := insightsMap_eq_none ks i hi
      have hlt : (orderedInsights ks).length < 4 := by
        have hstep := length_filterMap_lt
          (fun icon => (insightsMap ks icon).map (fun insight =>
            ({ title := insightTitles icon, text := insight.text,
               icon := insight.icon } : KeyInsight)))
          orderedIcons i (mem_orderedIcons i) (by simp [hnone])
        simpa [orderedInsights, orderedIcons] using hstep
      exact ⟨missingInsightsMsg, by simp [normalizeResponse, hlen, hlt]⟩

/-- C6 witness: a raw response with four entries but no `tenure` category
is rejected. -/
theorem missing_category_fails_witness :
    ∃ e, normalizeResponse
        ⟨some ⟨70, 30⟩,
         some [⟨.skills, "a", none⟩, ⟨.leadership, "b", none⟩,
               ⟨.expertise, "c", none⟩, ⟨.skills, "d", none⟩]⟩
      = Except.error e :=
  missing_category_fails _ _ ⟨.tenure, by decide⟩

/-- C1: when the raw response carries, for each of the four keys, at least
one entry, normalization succeeds and the result lists the categories in
the fixed order `[skills, leadership, tenure, expertise]` with the fixed
titles from the key-to-title table, regardless of the order of the raw
entries and of any service-supplied title. -/
theorem insights_fixed_order_and_titles (sd : SkillDistribution)
    (ks : List RawKeyInsight)
    (hall : ∀ i : Icon, ∃ k ∈ ks, k.icon = i) :
    ∃ r : InsightData,
      normalizeResponse ⟨some sd, some ks⟩ = Except.ok r ∧
      r.keyInsights.map KeyInsight.icon = orderedIcons ∧
      r.keyInsights.map KeyInsight.title = orderedIcons.map insightTitles := by
  obtain ⟨k1, hk1, hi1⟩ := insightsMap_isSome ks .skills (hall .skills)
  obtain ⟨k2, hk2, hi2⟩ := insightsMap_isSome ks .leadership (hall .leadership)
  obtain ⟨k3, hk3, hi3⟩ := insightsMap_isSome ks .tenure (hall .tenure)
  obtain ⟨k4, hk4, hi4⟩ := insightsMap_isSome ks .expertise (hall .expertise)
  have hins : orderedInsights ks =
      [⟨insightTitles .skills, k1.text, k1.icon⟩,
       ⟨insightTitles .leadership, k2.text, k2.icon⟩,
       ⟨insightTitles .tenure, k3.text, k3.icon⟩,
       ⟨insightTitles .expertise, k4.text, k4.icon⟩] := by
    simp [orderedInsights, orderedIcons, hk1, hk2, hk3, hk4]
  have hlen : ¬ ks.length < 4 := by
    have hsub : (Finset.univ : Finset Icon) ⊆
        (ks.map RawKeyInsight.icon).toFinset := by
      intro i _
      obtain ⟨k, hk, hik⟩ := hall i
      rw [List.mem_toFinset]
      exact List.mem_map.mpr ⟨k, hk, hik⟩
    have hcard : (Finset.univ : Finset Icon).card ≤
        (ks.map RawKeyInsight.icon).toFinset.card := Finset.card_le_card hsub
    have h4 : (Finset.univ : Finset Icon).card = 4 := by decide
    have hle : (ks.map RawKeyInsight.icon).toFinset.card ≤
        (ks.map RawKeyInsight.icon).length := List.toFinset_card_le _
    rw [List.length_map] at hle
    omega
  have hlen2 : ¬ (orderedInsights ks).length < 4 := by
    rw [hins]
    norm_num
  refine ⟨⟨normalizeDistribution sd, orderedInsights ks⟩, ?_, ?_, ?_⟩
  · simp [normalizeResponse, hlen, hlen2]
  · rw [hins]
    simp [orderedIcons, hi1, hi2, hi3, hi4]
  · rw [hins]
    simp [orderedIcons]

/-- C1 witness: a raw response listing the four categories out of order,
one of them with a service-supplied title, normalizes to the fixed order
with the fixed titles. -/
theorem insights_fixed_order_and_titles_witness :
    ∃ r : InsightData,
      normalizeResponse
          ⟨some ⟨70, 20⟩,
           some [⟨.tenure, "t", none⟩, ⟨.skills, "s", some "Service Title"⟩,
                 ⟨.expertise, "e", none⟩, ⟨.leadership, "l", none⟩]⟩
        = Except.ok r ∧
      r.keyInsights.map KeyInsight.icon = orderedIcons ∧
      r.keyInsights.map KeyInsight.title = orderedIcons.map insightTitles :=
  insights_fixed_order_and_titles ⟨70, 20⟩ _ (by decide)

/-- C9: when the raw response holds two or more entries with the same key,
the icon-keyed lookup answers with the last such entry in raw order (the
JavaScript `Map` keeps the last write), and the successful normalized
result contains, for that key, the category built from that last entry. -/
theorem duplicate_key_last_wins (sd : SkillDistribution)
    (ks : List RawKeyInsight) (i : Icon) (r : InsightData)
    (hdup : 2 ≤ (ks.filter (fun k => decide (k.icon = i))).length)
    (hok : normalizeResponse ⟨some sd, some ks⟩ = Except.ok r) :
    ∃ klast,
      (ks.filter (fun k => decide (k.icon = i))).getLast? = some klast ∧
      insightsMap ks i = some klast ∧
      ({ title := insightTitles i, text := klast.text,
         icon := klast.icon } : KeyInsight) ∈ r.keyInsights := by
  have hne : ks.filter (fun k => decide (k.icon = i)) ≠ [] := by
    intro hnil
    rw [hnil] at hdup
    simp at hdup
  obtain ⟨klast, hlast⟩ :=
    Option.isSome_iff_exists.mp (List.getLast?_isSome.mpr hne)
  have hmap : insightsMap ks i = some klast := by
    rw [insightsMap_eq_getLast]
    exact hlast
  have hr : r.keyInsights = orderedInsights ks := by
    by_cases hl1 : ks.length < 4
    · simp [normalizeResponse, hl1] at hok
    · by_cases hl2 : (orderedInsights ks).length < 4
      · simp [normalizeResponse, hl1, hl2] at hok
      · simp [normalizeResponse, hl1, hl2] at hok
        rw [← hok]
  refine ⟨klast, hlast, hmap, ?_⟩
  rw [hr]
  exact List.mem_filterMap.mpr ⟨i, mem_orderedIcons i, by simp [hmap]⟩

/-- C9 witness: with two `skills` entries in the raw response, the lookup
and the normalized result use the second (last) one. -/
theorem duplicate_key_last_wins_witness :
    ∃ klast,
      (([⟨.skills, "s1", none⟩, ⟨.leadership, "l", none⟩,
         ⟨.tenure, "t", none⟩, ⟨.expertise, "e", none⟩,
         ⟨.skills, "s2", some "Ignored"⟩] : List RawKeyInsight).filter
          (fun k => decide (k.icon = Icon.skills))).getLast? = some klast ∧
      insightsMap
          [⟨.skills, "s1", none⟩, ⟨.leadership, "l", none⟩,
           ⟨.tenure, "t", none⟩, ⟨.expertise, "e", none⟩,
           ⟨.skills, "s2", some "Ignored"⟩] Icon.skills = some klast ∧
      ({ title := insightTitles Icon.skills, text := klast.text,
         icon := klast.icon } : KeyInsight) ∈
        (InsightData.mk (normalizeDistribution ⟨50, 50⟩)
          [⟨"Skill Requirements", "s2", .skills⟩,
           ⟨"Leadership Experience", "l", .leadership⟩,
           ⟨"Employee Tenure", "t", .tenure⟩,
           ⟨"Required Expertise", "e", .expertise⟩]).keyInsights :=
  duplicate_key_last_wins ⟨50, 50⟩
    [⟨.skills, "s1", none⟩, ⟨.leadership, "l", none⟩,
     ⟨.tenure, "t", none⟩, ⟨.expertise, "e", none⟩,
     ⟨.skills, "s2", some "Ignored"⟩]
    Icon.skills
    (InsightData.mk (normalizeDistribution ⟨50, 50⟩)
      [⟨"Skill Requirements", "s2", .skills⟩,
       ⟨"Leadership Experience", "l", .leadership⟩,
       ⟨"Employee Tenure", "t", .tenure⟩,
       ⟨"Required Expertise", "e", .expertise⟩])
    (by decide) rfl

/-- A result is in normalized shape when its categories are the four fixed
keys in fixed order with the fixed titles and its distribution sums to
exactly 100. -/
def isNormalized (r : InsightData) : Prop :=
  r.keyInsights.map KeyInsight.icon = orderedIcons ∧
  r.keyInsights.map KeyInsight.title = orderedIcons.map insightTitles ∧
  r.skillDistribution.technical + r.skillDistribution.soft = 100

/-- Re-submitting a normalized result to the normalizer: the categories
become raw entries again (their titles ride along as service-supplied
titles, which the normalizer ignores). -/
def toRawResponse (r : InsightData) : RawResponse :=
  { skillDistribution := some r.skillDistribution,
    keyInsights := some (r.keyInsights.map fun k =>
      { icon := k.icon, text := k.text, extraTitle := some k.title }) }

/-- C8: normalization is idempotent — running the normalization step on an
already-normalized result (four categories in fixed order, fixed titles,
distribution summing to 100) reproduces that result exactly. -/
theorem normalize_idempotent (r : InsightData) (h : isNormalized r) :
    normalizeResponse (toRawResponse r) = Except.ok r := by
  obtain ⟨hicons, htitles, hsum⟩ := h
  obtain ⟨⟨dt, ds⟩, ks⟩ := r
  dsimp [isNormalized] at hicons htitles hsum
  rcases ks with _ | ⟨a, _ | ⟨b, _ | ⟨c, _ | ⟨d, _ | ⟨e, tl⟩⟩⟩⟩⟩
  · simp [orderedIcons] at hicons
  · simp [orderedIcons] at hicons
  · simp [orderedIcons] at hicons
  · simp [orderedIcons] at hicons
  · obtain ⟨ta, xa, ia⟩ := a
    obtain ⟨tb, xb, ib⟩ := b
    obtain ⟨tc, xc, ic⟩ := c
    obtain ⟨td, xd, id⟩ := d
    obtain ⟨hia, hib, hic, hid⟩ :
        ia = Icon.skills ∧ ib = Icon.leadership ∧ ic = Icon.tenure ∧
          id = Icon.expertise := by
      simpa [orderedIcons] using hicons
    subst hia hib hic hid
    obtain ⟨hta, htb, htc, htd⟩ :
        ta = "Skill Requirements" ∧ tb = "Leadership Experience" ∧
          tc = "Employee Tenure" ∧ td = "Required Expertise" := by
      simpa [orderedIcons, insightTitles] using htitles
    subst hta htb htc htd
    have hdist : normalizeDistribution ⟨dt, ds⟩ = ⟨dt, ds⟩ :=
      normalizeDistribution_of_hundred dt ds hsum
    simp [normalizeResponse, toRawResponse, orderedInsights, orderedIcons,
      insightsMap, insightTitles, hdist]
  · simp [orderedIcons] at hicons

/-- A concrete result already in normalized shape. -/
def sampleNormalized : InsightData :=
  { skillDistribution := ⟨60, 40⟩,
    keyInsights :=
      [⟨"Skill Requirements", "s", .skills⟩,
       ⟨"Leadership Experience", "l", .leadership⟩,
       ⟨"Employee Tenure", "t", .tenure⟩,
       ⟨"Required Expertise", "e", .expertise⟩] }

/-- C8 witness: re-normalizing a concrete normalized result reproduces it
exactly. -/
theorem normalize_idempotent_witness :
    normalizeResponse (toRawResponse sampleNormalized) =
      Except.ok sampleNormalized :=
  normalize_idempotent sampleNormalized ⟨by decide, by decide, by norm_num [sampleNormalized]⟩

end AIJobInsight
